import Mathlib

set_option maxHeartbeats 1000000

/-!
Verification development for the tracer agent in `src/agents/tracer/agent.ts`.

JavaScript values are shallowly embedded as follows: strings are lists of
characters (`JSStr`), `Map` objects are insertion-ordered association lists,
numbers used as depths/timestamps are `Int`, and ids/offsets are `Nat`.
External collaborators (the ObjC runtime, the Java enumerator, the host
channel, `Interceptor.attach`, `eval`) are passed in as explicit inputs, so
every function below is a pure translation of the corresponding source
function.
-/

/-- JavaScript strings are modelled as lists of characters. -/
abbrev JSStr := List Char

/-- Notation helper turning a Lean string literal into its character list. -/
def jstr (s : String) : JSStr := s.data

/-- `Map.prototype.get`: first value stored under key `k`. -/
def jsMapGet {κ ν : Type} [DecidableEq κ] (k : κ) : List (κ × ν) → Option ν
  | [] => none
  | (a, v) :: rest => if k = a then some v else jsMapGet k rest

/-- `Map.prototype.set`: replace the value in place if the key is present
(keeping its position), otherwise append the new entry. -/
def jsMapSet {κ ν : Type} [DecidableEq κ] (k : κ) (v : ν) : List (κ × ν) → List (κ × ν)
  | [] => [(k, v)]
  | (a, w) :: rest => if k = a then (k, v) :: rest else (a, w) :: jsMapSet k v rest

/-- `Map.prototype.delete`: remove the entry stored under key `k`. -/
def jsMapDelete {κ ν : Type} [DecidableEq κ] (k : κ) : List (κ × ν) → List (κ × ν)
  | [] => []
  | (a, w) :: rest => if k = a then rest else (a, w) :: jsMapDelete k rest

/-- `String.prototype.replace(old, new)` with a plain string argument:
only the first occurrence is replaced. -/
def replaceFirst : JSStr → Char → Char → JSStr
  | [], _, _ => []
  | c :: rest, old, new => if c = old then new :: rest else c :: replaceFirst rest old new

/-- `String.prototype.split(sep)` for a single-character separator. -/
def splitOnChar (sep : Char) : JSStr → List JSStr
  | [] => [[]]
  | c :: rest =>
      if c = sep then [] :: splitOnChar sep rest
      else
        match splitOnChar sep rest with
        | [] => [[c]]
        | s :: ss => (c :: s) :: ss

/-- `Agent.parseMethodPattern`: an empty pattern yields no fragments;
otherwise `pattern.replace(";", ",").split(",")` (note that `replace` with a
string argument only rewrites the first `;`). -/
def parseMethodPattern (pattern : JSStr) : List JSStr :=
  if pattern.isEmpty then [] else splitOnChar ',' (replaceFirst pattern ';' ',')

/-- `MethodTypeSignature` from the source: argument-index to
is-reference-type map, return-type flag, optional selector. -/
structure MethodTypeSignature where
  argInfo : List (Nat × Bool)
  retType : Bool
  sel : Option JSStr
deriving DecidableEq

/-- `MemberName`: a bare name, a `[name, displayName]` pair, or a
`[name, displayName, signature]` triple. -/
inductive MemberName where
  | bare (name : JSStr)
  | withDisplay (name displayName : JSStr)
  | withSig (name displayName : JSStr) (sig : MethodTypeSignature)
deriving DecidableEq

/-- The first component of a `NativeTarget` tuple: `"c" | "objc" | "swift"`. -/
inductive TargetKind where
  | c
  | objc
  | swift
deriving DecidableEq

/-- `NativeTarget = [type, scopeName, memberName]`. -/
abbrev NativeTarget := TargetKind × JSStr × MemberName

/-- The native target plan, `Map<NativeId, NativeTarget>` keyed by the
stringified address. -/
abbrev NativeMap := List (JSStr × NativeTarget)

/-- `typeof name === "string" ? name : name[1]` as used on every member. -/
def memberDisplayName : MemberName → JSStr
  | .bare name => name
  | .withDisplay _ displayName => displayName
  | .withSig _ displayName _ => displayName

/-- Display name of a native target's member. -/
def targetDisplayName (t : NativeTarget) : JSStr := memberDisplayName t.2.2

/-- A JavaScript `RegExp` compiled with the `"g"` flag: an abstract forward
searcher (from a start index to the span of the first match at or after it)
together with the mutable `lastIndex` slot mandated by ECMAScript. -/
structure JSRegExp where
  search : JSStr → Nat → Option (Nat × Nat)
  lastIndex : Nat

/-- `RegExp.prototype.test` on a global regex: search from `lastIndex`;
on success store the match end in `lastIndex`, on failure reset it to 0. -/
def regexTest (r : JSRegExp) (s : JSStr) : Bool × JSRegExp :=
  match r.search s r.lastIndex with
  | some me => (true, { r with lastIndex := me.2 })
  | none => (false, { r with lastIndex := 0 })

/-- The inner loop of `filterObjCMethod`: try each regex in order against the
display name, stopping at the first success; the regexes keep their updated
`lastIndex` state for the next plan entry. -/
def anyRegexMatches : List JSRegExp → JSStr → Bool × List JSRegExp
  | [], _ => (false, [])
  | r :: rest, s =>
      let tr := regexTest r s
      if tr.1 then (true, tr.2 :: rest)
      else
        let br := anyRegexMatches rest s
        (br.1, tr.2 :: br.2)

/-- The deletion loop of `filterObjCMethod`: walk the plan entries in order,
deleting every entry whose display name matches none of the regexes. -/
def filterLoop : List JSRegExp → List (JSStr × NativeTarget) → NativeMap → NativeMap
  | _, [], native => native
  | regs, e :: rest, native =>
      let mr := anyRegexMatches regs (targetDisplayName e.2)
      filterLoop mr.2 rest (if mr.1 then native else jsMapDelete e.1 native)

/-- `Agent.filterObjCMethod`. `compile` models `new RegExp(pt, "g")`:
`none` is a thrown constructor error, silently skipped by the source's
`try`/`catch`. With no valid regex the plan is returned untouched. -/
def filterObjCMethod (compile : JSStr → Option (JSStr → Nat → Option (Nat × Nat)))
    (pattern : JSStr) (native : NativeMap) : NativeMap :=
  let regList := (parseMethodPattern pattern).filterMap
    (fun pt => (compile pt).map (fun f => JSRegExp.mk f 0))
  if regList.isEmpty then native
  else filterLoop regList native native

/-- `str.replace(/^./, c => c.toUpperCase())`. -/
def capitalizeFirstLetter : JSStr → JSStr
  | [] => []
  | c :: rest => c.toUpper :: rest

/-- The getter display name `-[${className} ${name}]`. -/
def getterName (className name : JSStr) : JSStr :=
  '-' :: '[' :: (className ++ ' ' :: (name ++ [']']))

/-- The setter display name `-[${className} set${capitalName}:]`. -/
def setterName (className capitalName : JSStr) : JSStr :=
  '-' :: '[' :: (className ++ ' ' :: ('s' :: 'e' :: 't' :: (capitalName ++ [':', ']'])))

/-- The getter/setter display names pushed for the instance-variable keys of
one class: each key loses its first character (`key.substring(1)`), and the
setter form capitalizes the remainder. -/
def ivarPropertyNames (className : JSStr) (keys : List JSStr) : List JSStr :=
  keys.foldl (fun a key =>
    a ++ [getterName className (key.drop 1),
          setterName className (capitalizeFirstLetter (key.drop 1))]) []

/-- `otherIgnoreSet = new Set(["cxx_destruct", "dealloc", "alloc"])`. -/
def fixedIgnoreNames : List JSStr := [jstr "cxx_destruct", jstr "dealloc", jstr "alloc"]

/-- The `for ... of native.entries()` loop that deletes every entry whose
target satisfies `p` (deleting the current entry of a live `Map` iteration
is equivalent to iterating the original entry list). -/
def deleteMatching (p : NativeTarget → Bool) (native : NativeMap) : NativeMap :=
  native.foldl (fun acc e => if p e.2 then jsMapDelete e.1 acc else acc) native

/-- `Agent.excludeObjCProperty`. `env` models the ObjC runtime: for a class
name it yields the instance-variable keys of a fresh instance, or `none`
when the class is missing, cannot `alloc`, or instantiation throws. -/
def excludeObjCProperty (env : JSStr → Option (List JSStr)) (pattern : JSStr)
    (native : NativeMap) : NativeMap :=
  if pattern.isEmpty then native
  else
    let classNames := splitOnChar ',' (replaceFirst pattern ';' ',')
    let propertyMethodNames := classNames.foldl (fun acc className =>
      match env className with
      | none => acc
      | some keys => acc ++ ivarPropertyNames className keys) []
    deleteMatching (fun t =>
      propertyMethodNames.contains (targetDisplayName t) ||
      fixedIgnoreNames.contains (targetDisplayName t)) native

/-- One class of a `Java.enumerateMethods` match group: the fully-qualified
class name and the enumerated method signature strings. -/
structure MatchClass where
  name : JSStr
  methods : List JSStr
deriving DecidableEq

/-- One `Java.enumerateMethods` match group. Class-loader wrappers are
modelled by an identity (`Option Nat`, `none` being the `null` loader),
compared the way the source compares them (`equals` both-non-null,
reference equality otherwise). -/
structure MatchGroup where
  loader : Option Nat
  classes : List MatchClass
deriving DecidableEq

/-- `JavaTargetClass`: bare method name to the (longest-known) full
signature string. -/
structure JavaTargetClass where
  methods : List (JSStr × JSStr)
deriving DecidableEq

/-- `JavaTargetGroup`: loader identity plus class-name-keyed classes. -/
structure JavaTargetGroup where
  loader : Option Nat
  classes : List (JSStr × JavaTargetClass)
deriving DecidableEq

/-- `javaBareMethodNameFromMethodName`: the prefix before the first `(`,
or the whole name when it has no parenthesis. -/
def javaBareMethodNameFromMethodName (fullName : JSStr) : JSStr :=
  match fullName.findIdx? (fun c => c = '(') with
  | none => fullName
  | some signatureStart => fullName.take signatureStart

/-- `javaTargetClassFromMatchClass`: a `Map` built from
`(bareName, fullName)` pairs; a duplicate bare name keeps the first
insertion position but the last value, per the `Map` constructor. -/
def javaTargetClassFromMatchClass (klass : MatchClass) : JavaTargetClass :=
  ⟨klass.methods.foldl
    (fun m fullName => jsMapSet (javaBareMethodNameFromMethodName fullName) fullName m) []⟩

/-- `javaTargetGroupFromMatchGroup`. -/
def javaTargetGroupFromMatchGroup (group : MatchGroup) : JavaTargetGroup :=
  { loader := group.loader
    classes := group.classes.foldl
      (fun m klass => jsMapSet klass.name (javaTargetClassFromMatchClass klass) m) [] }

/-- Loader comparison from `includeJavaMethod`/`excludeJavaMethod`:
`candidateLoader.equals(loader)` when both are non-null, `===` otherwise. -/
def loaderEq : Option Nat → Option Nat → Bool
  | some a, some b => a == b
  | none, none => true
  | _, _ => false

/-- Apply `f` to the first list element satisfying `p` (the source's `find`
returns a reference that is then mutated in place). -/
def updateFirstWhere {β : Type} (p : β → Bool) (f : β → β) : List β → List β
  | [] => []
  | x :: rest => if p x then f x :: rest else x :: updateFirstWhere p f rest

/-- The innermost merge loop of `includeJavaMethod`: fold one enumerated
class's method list into the existing bare-name map, keeping the longer
signature string on a conflict (`methodName.length > existingName.length`). -/
def mergeClassMethods (existing : List (JSStr × JSStr)) (methodNames : List JSStr) :
    List (JSStr × JSStr) :=
  methodNames.foldl (fun methods methodName =>
    let bareMethodName := javaBareMethodNameFromMethodName methodName
    match jsMapGet bareMethodName methods with
    | none => jsMapSet bareMethodName methodName methods
    | some existingName =>
        jsMapSet bareMethodName
          (if existingName.length < methodName.length then methodName else existingName)
          methods) existing

/-- The per-group merge of `includeJavaMethod` once an existing group with
the same loader was found. -/
def mergeGroupClasses (existing : JavaTargetGroup) (group : MatchGroup) : JavaTargetGroup :=
  { loader := existing.loader
    classes := group.classes.foldl (fun classes klass =>
      match jsMapGet klass.name classes with
      | none => jsMapSet klass.name (javaTargetClassFromMatchClass klass) classes
      | some existingClass =>
          jsMapSet klass.name ⟨mergeClassMethods existingClass.methods klass.methods⟩ classes)
      existing.classes }

/-- `Agent.includeJavaMethod`, with the `Java.enumerateMethods(pattern)`
result passed in as `groups`: each group is merged into the plan's group
with the same loader, or appended as a fresh group. -/
def includeJavaMethod (groups : List MatchGroup) (plan : List JavaTargetGroup) :
    List JavaTargetGroup :=
  groups.foldl (fun plan group =>
    match plan.find? (fun candidate => loaderEq candidate.loader group.loader) with
    | none => plan ++ [javaTargetGroupFromMatchGroup group]
    | some _ =>
        updateFirstWhere (fun candidate => loaderEq candidate.loader group.loader)
          (fun candidate => mergeGroupClasses candidate group) plan) plan

/-- Observation helper: the signature stored for a bare method name under a
given loader and class. -/
def lookupJavaMethod (plan : List JavaTargetGroup) (loader : Option Nat)
    (className bareName : JSStr) : Option JSStr :=
  match plan.find? (fun g => loaderEq g.loader loader) with
  | none => none
  | some g =>
      match jsMapGet className g.classes with
      | none => none
      | some c => jsMapGet bareName c.methods

/-- Probe cut point: `">"` (enter) or `"<"` (leave). -/
inductive CutPoint where
  | enter
  | leave
deriving DecidableEq

/-- `Map<ThreadId, number>` restricted to lookup/set/delete, modelled as a
partial assignment of depths to thread ids. -/
abbrev DepthTable := Nat → Option Int

/-- The agent's initial (empty) `stackDepth` map. -/
def emptyDepthTable : DepthTable := fun _ => none

/-- `Map.prototype.set` on the depth table. -/
def tableSet (tbl : DepthTable) (k : Nat) (v : Int) : DepthTable :=
  fun t => if t = k then some v else tbl t

/-- `Map.prototype.delete` on the depth table. -/
def tableDelete (tbl : DepthTable) (k : Nat) : DepthTable :=
  fun t => if t = k then none else tbl t

/-- `Agent.updateDepth`: on enter, store `depth + 1` and return the
pre-increment depth; on leave, decrement, delete the entry when the result
is exactly zero, and return the decremented value. -/
def updateDepth (tbl : DepthTable) (threadId : Nat) (cutPoint : CutPoint) :
    DepthTable × Int :=
  let depth := (tbl threadId).getD 0
  match cutPoint with
  | .enter => (tableSet tbl threadId (depth + 1), depth)
  | .leave =>
      let d := depth - 1
      if d ≠ 0 then (tableSet tbl threadId d, d) else (tableDelete tbl threadId, d)

/-- Run a sequence of probe callbacks for one thread through `updateDepth`. -/
def runDepthSeq (tbl : DepthTable) (tid : Nat) : List CutPoint → DepthTable
  | [] => tbl
  | cp :: rest => runDepthSeq (updateDepth tbl tid cp).1 tid rest

/-- Every exit in the sequence happens at a strictly positive running depth
(each exit is matched by a preceding unmatched enter). -/
def exitsSafe : Int → List CutPoint → Bool
  | _, [] => true
  | d, .enter :: rest => exitsSafe (d + 1) rest
  | d, .leave :: rest => decide (0 < d) && exitsSafe (d - 1) rest

/-- Net enter/exit balance of a callback sequence. -/
def netBalance : List CutPoint → Int
  | [] => 0
  | .enter :: rest => netBalance rest + 1
  | .leave :: rest => netBalance rest - 1

/-- `TraceEvent = [targetId, timestamp, threadId, depth, message]`. -/
structure TraceEvent where
  targetId : Nat
  timestamp : Int
  threadId : Nat
  depth : Int
  message : String
deriving DecidableEq

/-- The agent state touched by `invokeNativeHandler`. -/
structure AgentState where
  stackDepth : DepthTable
  pendingEvents : List TraceEvent
  started : Int

/-- `Agent.invokeNativeHandler`: compute the timestamp from the injected
clock reading `now`, update the thread depth, and run the user callback.
The callback is external `eval`'d code; it is modelled by the list of its
`log(...)` calls, each carrying the variadic string arguments that the log
closure joins with a single space and appends as one event. -/
def invokeNativeHandler (st : AgentState) (id : Nat) (logCalls : List (List String))
    (now : Int) (threadId : Nat) (cutPoint : CutPoint) : AgentState :=
  let timestamp := now - st.started
  let r := updateDepth st.stackDepth threadId cutPoint
  { st with
    stackDepth := r.1
    pendingEvents := st.pendingEvents ++ logCalls.map (fun message =>
      ⟨id, timestamp, threadId, r.2, String.intercalate " " message⟩) }

/-- Total member count of a `(scopeName, members)` group list. -/
def totalMembers {α : Type} (scopes : List (JSStr × List α)) : Nat :=
  (scopes.map (fun g => g.2.length)).sum

/-- The members of a group list flattened in group order. -/
def flattenScopes {α : Type} (scopes : List (JSStr × List α)) : List α :=
  (scopes.map (fun g => g.2)).flatten

/-- One pass of `getHandlers`' inner `for` loop: consume members across the
pending groups in order until `budget` members are taken or the queue is
exhausted. Returns the scopes of the outbound request (groups after the one
where the budget ran out are not included), the new pending queue (consumed
members spliced away), and the number of members consumed (`size`). -/
def consumePass {α : Type} (budget : Nat) :
    List (JSStr × List α) → List (JSStr × List α) × List (JSStr × List α) × Nat
  | [] => ([], [], 0)
  | (name, members) :: rest =>
      if budget ≤ members.length then
        ([(name, members.take budget)], (name, members.drop budget) :: rest, budget)
      else
        let r := consumePass (budget - members.length) rest
        ((name, members) :: r.1, (name, ([] : List α)) :: r.2.1, members.length + r.2.2)

/-- The `while` loop that splices away now-empty leading groups. -/
def dropEmptyScopes {α : Type} : List (JSStr × List α) → List (JSStr × List α)
  | [] => []
  | (name, members) :: rest =>
      if members.isEmpty then dropEmptyScopes rest else (name, members) :: rest

/-- The `do`/`while` loop of `getHandlers`, recorded as the list of
outbound requests `(id, scopes)`. Each pass consumes up to 1000 members,
sends one request tagged with the running `id`, and advances `id` by the
number of members consumed; the loop continues while pending groups remain.
`fuel` bounds the recursion; `totalMembers pending + 1` always suffices. -/
def getHandlersLoop {α : Type} :
    Nat → Nat → List (JSStr × List α) → List (Nat × List (JSStr × List α))
  | 0, _, _ => []
  | Nat.succ fuel, id, pending =>
      let r := consumePass 1000 pending
      let np := dropEmptyScopes r.2.1
      if np.isEmpty then [(id, r.1)]
      else (id, r.1) :: getHandlersLoop fuel (id + r.2.2) np

/-- The sequence of `handlers:get` requests `getHandlers` sends for a given
base id and group list (the host's replies do not influence it). -/
def getHandlersRequests {α : Type} (baseId : Nat) (scopes : List (JSStr × List α)) :
    List (Nat × List (JSStr × List α)) :=
  getHandlersLoop (totalMembers scopes + 1) baseId scopes

/-- Each request's id equals the previous request's id plus the number of
members the previous request carried, starting from the base id. -/
def idsChained {α : Type} : Nat → List (Nat × List (JSStr × List α)) → Bool
  | _, [] => true
  | base, (id, scopes) :: rest => id == base && idsChained (id + totalMembers scopes) rest

/-- The concatenated scripts accumulated by `getHandlers` when the host
answers every request with exactly one script per requested member, in
request order; the per-member script is computed by `h`. -/
def runGetHandlers {α β : Type} (h : α → β) (baseId : Nat)
    (scopes : List (JSStr × List α)) : List β :=
  ((getHandlersRequests baseId scopes).map (fun r => (flattenScopes r.2).map h)).flatten

/-- The outcome of one `traceNativeEntries` call: the handler-registry
entries added (`this.handlers.set(id, handler)` runs for every member,
before any attach attempt), the ids whose `Interceptor.attach` succeeded,
and one warning per failed attachment. -/
structure NativeTraceOutcome where
  handlers : List (Nat × String)
  attached : List Nat
  warnings : List JSStr
deriving DecidableEq

/-- The per-member body of `traceNativeEntries`' nested loops, walking the
flattened items with a running offset. `scripts` is the host's response;
the parsed handler is opaque external code, so the registry stores the
script text itself. `attachOk` models whether `Interceptor.attach` at an
address succeeds or throws. -/
def traceLoop (baseId : Nat) (scripts : List String) (attachOk : JSStr → Bool) :
    Nat → List (MemberName × JSStr) → NativeTraceOutcome → NativeTraceOutcome
  | _, [], out => out
  | offset, item :: rest, out =>
      let id := baseId + offset
      let out1 := { out with handlers := jsMapSet id (scripts.getD offset "") out.handlers }
      let out2 :=
        if attachOk item.2 then { out1 with attached := out1.attached ++ [id] }
        else { out1 with warnings := out1.warnings ++ [memberDisplayName item.1] }
      traceLoop baseId scripts attachOk (offset + 1) rest out2

/-- `Agent.traceNativeEntries` for one flavor: nothing happens for an empty
group map; otherwise every member gets a handler-registry entry and either
a successful attachment or a warning. -/
def traceNativeEntries (baseId : Nat) (groups : List (JSStr × List (MemberName × JSStr)))
    (scripts : List String) (attachOk : JSStr → Bool) : NativeTraceOutcome :=
  if groups.isEmpty then ⟨[], [], []⟩
  else traceLoop baseId scripts attachOk 0 (flattenScopes groups) ⟨[], [], []⟩

/-- Forward search for a literal character, instantiating the abstract
regex searcher for a pattern like `/a/g`. -/
def litSearch (c : Char) : JSStr → Nat → Option (Nat × Nat) := fun s start =>
  match (s.drop start).findIdx? (fun x => x = c) with
  | some i => some (start + i, start + i + 1)
  | none => none

/-- Regex compilation environment where only the fragment `a` is valid. -/
def compileLitA : JSStr → Option (JSStr → Nat → Option (Nat × Nat)) := fun pt =>
  if pt = jstr "a" then some (litSearch 'a') else none

/-- An ObjC method target whose display name is `a`. -/
def targetA : NativeTarget := (TargetKind.objc, jstr "C", MemberName.bare (jstr "a"))

/-- A plan with three targets, all display-named `a`. -/
def planAAA : NativeMap := [(jstr "1", targetA), (jstr "2", targetA), (jstr "3", targetA)]

/-- ObjC runtime for the property-exclusion counterexample: class `C`
instantiates fine and has no instance variables. -/
def envNoIvars : JSStr → Option (List JSStr) := fun c =>
  if c = jstr "C" then some [] else none

/-- The planned target `-[C dealloc]` of class `C`. -/
def deallocTarget : NativeTarget :=
  (TargetKind.objc, jstr "C", MemberName.withDisplay (jstr "- dealloc") (jstr "-[C dealloc]"))

/-- A plain C export literally named `dealloc` in another scope. -/
def cDeallocTarget : NativeTarget := (TargetKind.c, jstr "libc", MemberName.bare (jstr "dealloc"))



set_option maxRecDepth 100000

theorem splitOnChar_ne_nil (sep : Char) : ∀ l : JSStr, splitOnChar sep l ≠ []
  | [] => by simp [splitOnChar]
  | c :: rest => by
      by_cases h : c = sep
      · simp [splitOnChar, h]
      · have := splitOnChar_ne_nil sep rest
        simp only [splitOnChar, if_neg h]
        cases hr : splitOnChar sep rest with
        | nil => exact absurd hr this
        | cons s ss => simp

theorem length_splitOnChar (sep : Char) : ∀ l : JSStr,
    (splitOnChar sep l).length = l.count sep + 1
  | [] => by simp [splitOnChar]
  | c :: rest => by
      by_cases h : c = sep
      · simp [splitOnChar, h, List.count_cons, length_splitOnChar sep rest]
      · simp only [splitOnChar, if_neg h]
        cases hr : splitOnChar sep rest with
        | nil => exact absurd hr (splitOnChar_ne_nil sep rest)
        | cons s ss =>
            have := length_splitOnChar sep rest
            rw [hr] at this
            simp only [List.length_cons] at this ⊢
            simp [List.count_cons, h, this]

theorem replaceFirst_of_not_mem {a : Char} (b : Char) : ∀ {l : JSStr}, a ∉ l →
    replaceFirst l a b = l
  | [], _ => rfl
  | c :: rest, h => by
      have hca : ¬c = a := fun hc => h (hc ▸ List.mem_cons_self c rest)
      have hrest : a ∉ rest := fun hm => h (List.mem_cons_of_mem c hm)
      simp [replaceFirst, hca, replaceFirst_of_not_mem b hrest]

theorem count_replaceFirst {a b : Char} (hab : a ≠ b) : ∀ l : JSStr,
    (replaceFirst l a b).count b = l.count b + if a ∈ l then 1 else 0
  | [] => by simp [replaceFirst]
  | c :: rest => by
      by_cases h : c = a
      · subst h
        simp [replaceFirst, List.count_cons, Ne.symm hab]
      · have hmem : (a ∈ c :: rest) ↔ (a ∈ rest) :=
          ⟨fun hm => (List.mem_cons.mp hm).resolve_left fun h1 => h h1.symm,
           List.mem_cons_of_mem c⟩
        simp only [replaceFirst, if_neg h, List.count_cons, count_replaceFirst hab rest]
        by_cases hm : a ∈ rest
        · simp only [if_pos hm, if_pos (hmem.mpr hm)]
          omega
        · simp only [if_neg hm, if_neg (fun hx => hm (hmem.mp hx))]
          omega

/-- Claim C7 (counterexample): `parseMethodPattern` does not split at every
separator; `"a;b;c"` has two separators but yields only two fragments, the
second still containing a `;`. -/
theorem parseMethodPattern_semicolon_ce :
    parseMethodPattern (jstr "a;b;c") = [jstr "a", jstr "b;c"] ∧
    (parseMethodPattern (jstr "a;b;c")).length ≠
      (jstr "a;b;c").count ';' + (jstr "a;b;c").count ',' + 1 := by
  decide

/-- Claim C7 (amended): for a nonempty pattern, `parseMethodPattern`
replaces only the first `;` by `,` and then splits at every `,`; hence a
nonempty pattern whose separators comprise at most one `;` yields exactly
`k + 1` fragments, `k` being the number of separator characters. -/
theorem parseMethodPattern_fragment_count (P : JSStr) (hne : P ≠ [])
    (hsemi : P.count ';' ≤ 1) :
    (parseMethodPattern P).length = P.count ',' + P.count ';' + 1 := by
  have hie : P.isEmpty = false := by
    cases P with
    | nil => exact absurd rfl hne
    | cons c rest => rfl
  have hcnt : (replaceFirst P ';' ',').count ',' =
      P.count ',' + if ';' ∈ P then 1 else 0 :=
    count_replaceFirst (by decide) P
  have hif : (if ';' ∈ P then 1 else 0) = P.count ';' := by
    by_cases hmem : ';' ∈ P
    · rw [if_pos hmem]
      have := List.count_pos_iff.mpr hmem
      omega
    · rw [if_neg hmem, List.count_eq_zero.mpr hmem]
  rw [parseMethodPattern, hie]
  simp only [Bool.false_eq_true, if_false]
  rw [length_splitOnChar, hcnt, hif]

/-- Claim C7 (witness). -/
theorem parseMethodPattern_fragment_count_witness :
    (jstr "a;b,c" ≠ [] ∧ (jstr "a;b,c").count ';' ≤ 1) ∧
    (parseMethodPattern (jstr "a;b,c")).length =
      (jstr "a;b,c").count ',' + (jstr "a;b,c").count ';' + 1 :=
  ⟨⟨by decide, by decide⟩, parseMethodPattern_fragment_count _ (by decide) (by decide)⟩

/-- Claim C8: a `filter object-method` rule none of whose fragments compiles
to a valid regular expression leaves the native target map completely
unchanged (fragments are dropped silently; the rule is a no-op). -/
theorem filterObjCMethod_all_invalid_noop
    (compile : JSStr → Option (JSStr → Nat → Option (Nat × Nat)))
    (pattern : JSStr) (native : NativeMap)
    (h : (parseMethodPattern pattern).all (fun pt => (compile pt).isNone) = true) :
    filterObjCMethod compile pattern native = native := by
  have hempty : (parseMethodPattern pattern).filterMap
      (fun pt => (compile pt).map (fun f => JSRegExp.mk f 0)) = [] := by
    rw [List.filterMap_eq_nil_iff]
    intro pt hpt
    have hn : (compile pt).isNone = true := List.all_eq_true.mp h pt hpt
    rw [Option.isNone_iff_eq_none.mp hn]
    rfl
  rw [filterObjCMethod, hempty]
  rfl

/-- Claim C8 (witness). -/
theorem filterObjCMethod_all_invalid_noop_witness :
    ((parseMethodPattern (jstr "[,(")).all
      (fun pt => ((fun _ : JSStr => (none : Option (JSStr → Nat → Option (Nat × Nat)))) pt).isNone) = true) ∧
    filterObjCMethod (fun _ => none) (jstr "[,(") [(jstr "1", targetA)] = [(jstr "1", targetA)] :=
  ⟨by decide, filterObjCMethod_all_invalid_noop _ _ _ (by decide)⟩

/-- Claim C4: `filterObjCMethod` compiles each fragment with the `g` flag
and reuses the stateful regexes across plan entries, so `RegExp.lastIndex`
leaks from one entry's `test` to the next. On a plan of three targets all
display-named `a` with pattern `a`, one application keeps entries 1 and 3
(entry 2 is dropped because the regex resumed at `lastIndex = 1`), and a
second application drops entry 3 as well: applying the filter twice does
not equal applying it once, although target 3's display name matches the
pattern. -/
theorem filterObjCMethod_global_flag_state :
    filterObjCMethod compileLitA (jstr "a") planAAA = [(jstr "1", targetA), (jstr "3", targetA)]
    ∧ filterObjCMethod compileLitA (jstr "a") (filterObjCMethod compileLitA (jstr "a") planAAA)
        = [(jstr "1", targetA)]
    ∧ filterObjCMethod compileLitA (jstr "a") (filterObjCMethod compileLitA (jstr "a") planAAA)
        ≠ filterObjCMethod compileLitA (jstr "a") planAAA := by
  decide

/-- Claim C2 (counterexample): a single traced call on a fresh thread
produces its two events with depth 0, not depth 1 — `updateDepth` returns
the pre-increment depth on enter and the post-decrement depth on leave. -/
theorem invokeNativeHandler_depth_ce :
    ((invokeNativeHandler
        (invokeNativeHandler ⟨emptyDepthTable, [], 0⟩ 1 [["a"]] 5 3 CutPoint.enter)
        1 [["b"]] 6 3 CutPoint.leave).pendingEvents.map TraceEvent.depth = [0, 0])
    ∧ ([0, 0] : List Int) ≠ [1, 1] := by
  decide

/-- Claim C2 (amended): for a single traced native call on a thread with no
existing depth entry, the dispatcher produces exactly one enter event and
one leave event, both carrying depth 0 (the pre-increment and
post-decrement depth respectively), the enter event's timestamp not later
than the leave event's, and the thread's depth entry deleted afterwards. -/
theorem invokeNativeHandler_single_call (id tid : Nat) (started now1 now2 : Int)
    (m1 m2 : List String) (h : now1 ≤ now2) :
    ((invokeNativeHandler
        (invokeNativeHandler ⟨emptyDepthTable, [], started⟩ id [m1] now1 tid CutPoint.enter)
        id [m2] now2 tid CutPoint.leave).pendingEvents =
      [⟨id, now1 - started, tid, 0, String.intercalate " " m1⟩,
       ⟨id, now2 - started, tid, 0, String.intercalate " " m2⟩])
    ∧ now1 - started ≤ now2 - started
    ∧ ((invokeNativeHandler
        (invokeNativeHandler ⟨emptyDepthTable, [], started⟩ id [m1] now1 tid CutPoint.enter)
        id [m2] now2 tid CutPoint.leave).stackDepth tid = none) := by
  refine ⟨?_, by omega, ?_⟩ <;>
    simp [invokeNativeHandler, updateDepth, emptyDepthTable, tableSet, tableDelete]

/-- Claim C2 (witness). -/
theorem invokeNativeHandler_single_call_witness :
    ((5 : Int) ≤ 7) ∧
    (((invokeNativeHandler
        (invokeNativeHandler ⟨emptyDepthTable, [], 2⟩ 9 [["x"]] 5 3 CutPoint.enter)
        9 [["y"]] 7 3 CutPoint.leave).pendingEvents =
      [⟨9, 5 - 2, 3, 0, String.intercalate " " ["x"]⟩,
       ⟨9, 7 - 2, 3, 0, String.intercalate " " ["y"]⟩])
    ∧ (5 : Int) - 2 ≤ 7 - 2
    ∧ ((invokeNativeHandler
        (invokeNativeHandler ⟨emptyDepthTable, [], 2⟩ 9 [["x"]] 5 3 CutPoint.enter)
        9 [["y"]] 7 3 CutPoint.leave).stackDepth 3 = none)) :=
  ⟨by decide, invokeNativeHandler_single_call 9 3 2 5 7 ["x"] ["y"] (by decide)⟩

theorem netBalance_eq_counts : ∀ seq : List CutPoint,
    netBalance seq = (seq.count CutPoint.enter : Int) - seq.count CutPoint.leave
  | [] => by simp [netBalance]
  | CutPoint.enter :: rest => by
      simp [netBalance, List.count_cons, netBalance_eq_counts rest]
      omega
  | CutPoint.leave :: rest => by
      simp [netBalance, List.count_cons, netBalance_eq_counts rest]
      omega

theorem runDepthSeq_represents (tid : Nat) : ∀ (seq : List CutPoint) (d : Int)
    (tbl : DepthTable), 0 ≤ d → exitsSafe d seq = true →
    tbl tid = (if d = 0 then none else some d) →
    runDepthSeq tbl tid seq tid =
      (if d + netBalance seq = 0 then none else some (d + netBalance seq))
  | [], d, tbl, hd, _, htbl => by
      simpa [runDepthSeq, netBalance] using htbl
  | CutPoint.enter :: rest, d, tbl, hd, hsafe, htbl => by
      have hdepth : ((tbl tid).getD 0) = d := by
        rw [htbl]
        by_cases h0 : d = 0
        · simp [h0]
        · simp [h0]
      have hstep : (updateDepth tbl tid CutPoint.enter).1 tid = some (d + 1) := by
        simp [updateDepth, hdepth, tableSet]
      have hne : ¬(d + 1 = 0) := by omega
      have ih := runDepthSeq_represents tid rest (d + 1)
        (updateDepth tbl tid CutPoint.enter).1 (by omega)
        (by simpa [exitsSafe] using hsafe)
        (by rw [hstep, if_neg hne])
      have harith : d + 1 + netBalance rest = d + netBalance (CutPoint.enter :: rest) := by
        simp [netBalance]
        omega
      rw [runDepthSeq, ih, harith]
  | CutPoint.leave :: rest, d, tbl, hd, hsafe, htbl => by
      have hs := hsafe
      simp only [exitsSafe, Bool.and_eq_true, decide_eq_true_eq] at hs
      have hdpos : 0 < d := hs.1
      have hdepth : ((tbl tid).getD 0) = d := by
        rw [htbl, if_neg (by omega)]
        rfl
      have hstep : (updateDepth tbl tid CutPoint.leave).1 tid =
          (if d - 1 = 0 then none else some (d - 1)) := by
        by_cases h1 : d - 1 = 0
        · simp [updateDepth, hdepth, h1, tableDelete]
        · simp [updateDepth, hdepth, h1, tableSet]
      have ih := runDepthSeq_represents tid rest (d - 1)
        (updateDepth tbl tid CutPoint.leave).1 (by omega) hs.2 hstep
      have harith : d - 1 + netBalance rest = d + netBalance (CutPoint.leave :: rest) := by
        simp [netBalance]
        omega
      rw [runDepthSeq, ih, harith]

/-- Claim C3 (counterexample): the sequence exit-then-enter has equal enter
and exit counts (net balance zero), yet afterwards the depth table still
holds an entry (with value 0) for the thread: an exit on a missing entry
stores `-1` instead of deleting, and the following enter stores `0`. -/
theorem updateDepth_net_zero_ce :
    ([CutPoint.leave, CutPoint.enter].count CutPoint.enter
      = [CutPoint.leave, CutPoint.enter].count CutPoint.leave)
    ∧ runDepthSeq emptyDepthTable 0 [CutPoint.leave, CutPoint.enter] 0 = some 0
    ∧ runDepthSeq emptyDepthTable 0 [CutPoint.leave, CutPoint.enter] 0 ≠ none := by
  decide

/-- Claim C3 (amended): for every callback sequence on one thread in which
every exit happens at strictly positive depth (each exit matched by a
preceding unmatched enter) and the numbers of enters and exits are equal,
the depth table afterwards holds no entry for that thread. -/
theorem updateDepth_balanced_cleanup (tid : Nat) (seq : List CutPoint)
    (hsafe : exitsSafe 0 seq = true)
    (hbal : seq.count CutPoint.enter = seq.count CutPoint.leave) :
    runDepthSeq emptyDepthTable tid seq tid = none := by
  have hnb : netBalance seq = 0 := by
    rw [netBalance_eq_counts, hbal]
    omega
  have := runDepthSeq_represents tid seq 0 emptyDepthTable le_rfl hsafe (by simp [emptyDepthTable])
  rw [hnb] at this
  simpa using this

/-- Claim C3 (witness). -/
theorem updateDepth_balanced_cleanup_witness :
    (exitsSafe 0 [CutPoint.enter, CutPoint.enter, CutPoint.leave, CutPoint.leave] = true
      ∧ [CutPoint.enter, CutPoint.enter, CutPoint.leave, CutPoint.leave].count CutPoint.enter
        = [CutPoint.enter, CutPoint.enter, CutPoint.leave, CutPoint.leave].count CutPoint.leave)
    ∧ runDepthSeq emptyDepthTable 7
        [CutPoint.enter, CutPoint.enter, CutPoint.leave, CutPoint.leave] 7 = none :=
  ⟨⟨by decide, by decide⟩,
   updateDepth_balanced_cleanup 7 _ (by decide) (by decide)⟩

/-- An exit that brings a thread's stored depth to exactly zero deletes the
thread's entry from the table. -/
theorem updateDepth_leave_deletes_at_zero (tbl : DepthTable) (tid : Nat)
    (h : tbl tid = some 1) : (updateDepth tbl tid CutPoint.leave).1 tid = none := by
  simp [updateDepth, h, tableDelete]

theorem jsMapDelete_eq_filter {κ ν : Type} [DecidableEq κ] (k : κ) :
    ∀ m : List (κ × ν), (m.map Prod.fst).Nodup →
      jsMapDelete k m = m.filter (fun x => !decide (k = x.1))
  | [], _ => rfl
  | (a, b) :: rest, h => by
      rw [List.map_cons] at h
      obtain ⟨hhead, hrest⟩ := List.nodup_cons.mp h
      by_cases hk : k = a
      · have hall : rest.filter (fun x => !decide (k = x.1)) = rest := by
          apply List.filter_eq_self.mpr
          intro x hx
          have hne : ¬(k = x.1) := by
            intro hkx
            have haeq : a = x.1 := hk.symm.trans hkx
            have hmem : x.1 ∈ rest.map Prod.fst := List.mem_map_of_mem Prod.fst hx
            exact hhead (haeq.symm ▸ hmem)
          simp [hne]
        rw [hk] at hall
        simp [jsMapDelete, hk, List.filter_cons, hall]
      · simp [jsMapDelete, hk, List.filter_cons, jsMapDelete_eq_filter k rest hrest]

theorem nodup_keys_jsMapDelete {κ ν : Type} [DecidableEq κ] (k : κ)
    (m : List (κ × ν)) (h : (m.map Prod.fst).Nodup) :
    ((jsMapDelete k m).map Prod.fst).Nodup := by
  rw [jsMapDelete_eq_filter k m h]
  exact h.sublist ((List.filter_sublist m).map Prod.fst)

theorem foldl_delete_eq_filter (p : NativeTarget → Bool) :
    ∀ (l : List (JSStr × NativeTarget)) (m : NativeMap),
      (m.map Prod.fst).Nodup →
      l.foldl (fun acc e => if p e.2 then jsMapDelete e.1 acc else acc) m
        = m.filter (fun x => !(l.any (fun e => p e.2 && decide (e.1 = x.1))))
  | [], m, hm => by simp
  | e :: l, m, hm => by
      rw [List.foldl_cons]
      by_cases hp : p e.2
      · rw [if_pos hp, foldl_delete_eq_filter p l (jsMapDelete e.1 m)
          (nodup_keys_jsMapDelete e.1 m hm)]
        rw [jsMapDelete_eq_filter e.1 m hm, List.filter_filter]
        apply List.filter_congr
        intro x hx
        by_cases hxe : e.1 = x.1
        · simp [hxe, hp]
        · simp [hxe, hp, fun h : x.1 = e.1 => hxe h.symm]
      · rw [if_neg hp, foldl_delete_eq_filter p l m hm]
        apply List.filter_congr
        intro x hx
        simp [hp]

theorem deleteMatching_eq_filter (p : NativeTarget → Bool) (native : NativeMap)
    (h : (native.map Prod.fst).Nodup) :
    deleteMatching p native = native.filter (fun e => !(p e.2)) := by
  rw [deleteMatching, foldl_delete_eq_filter p native native h]
  apply List.filter_congr
  intro x hx
  have hany : native.any (fun e => p e.2 && decide (e.1 = x.1)) = p x.2 := by
    by_cases hp : p x.2
    · rw [hp, List.any_eq_true.mpr ⟨x, hx, by simp [hp]⟩]
    · rw [Bool.eq_false_iff.mpr hp]
      rw [List.any_eq_false]
      intro e he
      by_cases hex : e.1 = x.1
      · have : e = x := List.inj_on_of_nodup_map h he hx hex
        simp [this, hp]
      · simp [hex]
  rw [hany]

theorem splitOnChar_of_not_mem {sep : Char} : ∀ {l : JSStr}, sep ∉ l →
    splitOnChar sep l = [l]
  | [], _ => rfl
  | c :: rest, h => by
      have hc : ¬c = sep := fun hc => h (hc ▸ List.mem_cons_self c rest)
      have hrest : sep ∉ rest := fun hm => h (List.mem_cons_of_mem c hm)
      simp [splitOnChar, hc, splitOnChar_of_not_mem hrest]

/-- Claim C6 (counterexample): with class `C` instantiable and having no
instance variables, `exclude objc-property C` does not remove the planned
target `-[C dealloc]` of class `C` (its display name is not the bare string
`dealloc`), while it does remove a plain C export named `dealloc` from an
unrelated scope — the fixed lifecycle names are matched class-blindly
against bare display names, not as `-[C ...]` targets of the named class. -/
theorem excludeObjCProperty_lifecycle_ce :
    excludeObjCProperty envNoIvars (jstr "C") [(jstr "1", deallocTarget)]
      = [(jstr "1", deallocTarget)]
    ∧ excludeObjCProperty envNoIvars (jstr "C") [(jstr "1", cDeallocTarget)] = [] := by
  decide

/-- Claim C6 (amended): for an `exclude objc-property` rule naming a single
instantiable class, the rule removes exactly the native targets whose
display name is a derived getter `-[C name]` or setter `-[C setName:]`
(`name` being an instance-variable key with its first character — the
conventional underscore marker — stripped), or whose display name is
literally `cxx_destruct`, `dealloc`, or `alloc` regardless of class;
classes that cannot be instantiated are skipped without error, leaving only
the fixed-name removal. -/
theorem excludeObjCProperty_spec (env : JSStr → Option (List JSStr))
    (className : JSStr) (keys : List JSStr) (native : NativeMap)
    (hcls : env className = some keys)
    (hne : className ≠ [])
    (hsemi : ';' ∉ className) (hcomma : ',' ∉ className)
    (hnodup : (native.map Prod.fst).Nodup) :
    excludeObjCProperty env className native =
      native.filter (fun e =>
        !((ivarPropertyNames className keys).contains (targetDisplayName e.2) ||
          fixedIgnoreNames.contains (targetDisplayName e.2))) := by
  have hie : className.isEmpty = false := by
    cases className with
    | nil => exact absurd rfl hne
    | cons c rest => rfl
  simp only [excludeObjCProperty, hie, Bool.false_eq_true, if_false,
    replaceFirst_of_not_mem ',' hsemi, splitOnChar_of_not_mem hcomma,
    List.foldl_cons, List.foldl_nil, hcls, List.nil_append]
  exact deleteMatching_eq_filter _ native hnodup

/-- Claim C6 (witness). -/
theorem excludeObjCProperty_spec_witness :
    ((fun c => if c = jstr "C" then some [jstr "_name"] else none) (jstr "C")
        = some [jstr "_name"]
      ∧ jstr "C" ≠ [] ∧ ';' ∉ jstr "C" ∧ ',' ∉ jstr "C"
      ∧ (([(jstr "1", (TargetKind.objc, jstr "C",
            MemberName.withDisplay (jstr "- name") (jstr "-[C name]"))),
          (jstr "2", (TargetKind.objc, jstr "C",
            MemberName.withDisplay (jstr "- setName:") (jstr "-[C setName:]"))),
          (jstr "3", (TargetKind.objc, jstr "C",
            MemberName.withDisplay (jstr "- other") (jstr "-[C other]")))] : NativeMap).map
            Prod.fst).Nodup)
    ∧ excludeObjCProperty (fun c => if c = jstr "C" then some [jstr "_name"] else none)
        (jstr "C")
        [(jstr "1", (TargetKind.objc, jstr "C",
            MemberName.withDisplay (jstr "- name") (jstr "-[C name]"))),
         (jstr "2", (TargetKind.objc, jstr "C",
            MemberName.withDisplay (jstr "- setName:") (jstr "-[C setName:]"))),
         (jstr "3", (TargetKind.objc, jstr "C",
            MemberName.withDisplay (jstr "- other") (jstr "-[C other]")))] =
      ([(jstr "1", (TargetKind.objc, jstr "C",
            MemberName.withDisplay (jstr "- name") (jstr "-[C name]"))),
        (jstr "2", (TargetKind.objc, jstr "C",
            MemberName.withDisplay (jstr "- setName:") (jstr "-[C setName:]"))),
        (jstr "3", (TargetKind.objc, jstr "C",
            MemberName.withDisplay (jstr "- other") (jstr "-[C other]")))] : NativeMap).filter
        (fun e =>
          !((ivarPropertyNames (jstr "C") [jstr "_name"]).contains (targetDisplayName e.2) ||
            fixedIgnoreNames.contains (targetDisplayName e.2))) :=
  ⟨⟨by decide, by decide, by decide, by decide, by decide⟩,
   excludeObjCProperty_spec _ _ _ _ (by decide) (by decide) (by decide) (by decide) (by decide)⟩

theorem loaderEq_self (l : Option Nat) : loaderEq l l = true := by
  cases l with
  | none => rfl
  | some a => simp [loaderEq]

/-- Claim C5: merging the enumeration results carrying `foo()V` and
`foo(I)V` for the same loader and class — in either order, the second merge
finding the group and class entry created fresh by the first — stores the
longer signature `foo(I)V` under the bare name `foo`. -/
theorem includeJavaMethod_longer_signature (loader : Option Nat) (className : JSStr) :
    lookupJavaMethod
        (includeJavaMethod [⟨loader, [⟨className, [jstr "foo(I)V"]⟩]⟩]
          (includeJavaMethod [⟨loader, [⟨className, [jstr "foo()V"]⟩]⟩] []))
        loader className (jstr "foo") = some (jstr "foo(I)V")
    ∧ lookupJavaMethod
        (includeJavaMethod [⟨loader, [⟨className, [jstr "foo()V"]⟩]⟩]
          (includeJavaMethod [⟨loader, [⟨className, [jstr "foo(I)V"]⟩]⟩] []))
        loader className (jstr "foo") = some (jstr "foo(I)V") := by
  have hbare1 : javaBareMethodNameFromMethodName (jstr "foo()V") = jstr "foo" := by decide
  have hbare2 : javaBareMethodNameFromMethodName (jstr "foo(I)V") = jstr "foo" := by decide
  constructor <;>
    simp [includeJavaMethod, javaTargetGroupFromMatchGroup, javaTargetClassFromMatchClass,
      mergeGroupClasses, mergeClassMethods, lookupJavaMethod, loaderEq_self,
      updateFirstWhere, jsMapGet, jsMapSet, hbare1, hbare2, List.find?]
  all_goals
    intro hlen
    exact absurd hlen (by decide)

theorem jsMapSet_of_not_mem {κ ν : Type} [DecidableEq κ] (k : κ) (v : ν) :
    ∀ m : List (κ × ν), k ∉ m.map Prod.fst → jsMapSet k v m = m ++ [(k, v)]
  | [], _ => rfl
  | (a, b) :: rest, h => by
      have hmem : k ∉ rest.map Prod.fst := by
        intro hm
        exact h (by simp [hm])
      have hka : ¬k = a := by
        intro hk
        exact h (by simp [hk])
      simp [jsMapSet, hka, jsMapSet_of_not_mem k v rest hmem]

theorem totalMembers_eq_length_flatten {α : Type} : ∀ scopes : List (JSStr × List α),
    totalMembers scopes = (flattenScopes scopes).length
  | [] => rfl
  | g :: rest => by
      simp [totalMembers, flattenScopes, List.length_append] at *
      simpa [totalMembers, flattenScopes] using totalMembers_eq_length_flatten rest

theorem traceLoop_counts (baseId : Nat) (scripts : List String) (attachOk : JSStr → Bool) :
    ∀ (items : List (MemberName × JSStr)) (offset : Nat) (out : NativeTraceOutcome),
      (∀ k ∈ out.handlers.map Prod.fst, k < baseId + offset) →
      (traceLoop baseId scripts attachOk offset items out).handlers.length
          = out.handlers.length + items.length
      ∧ (traceLoop baseId scripts attachOk offset items out).attached.length
          + (traceLoop baseId scripts attachOk offset items out).warnings.length
          = out.attached.length + out.warnings.length + items.length
  | [], offset, out, hb => by simp [traceLoop]
  | item :: rest, offset, out, hb => by
      have hid : (baseId + offset) ∉ out.handlers.map Prod.fst := by
        intro hm
        exact absurd (hb _ hm) (by omega)
      have hset : jsMapSet (baseId + offset) (scripts.getD offset "") out.handlers
          = out.handlers ++ [(baseId + offset, scripts.getD offset "")] :=
        jsMapSet_of_not_mem _ _ _ hid
      rw [traceLoop]
      by_cases hat : attachOk item.2
      · rw [if_pos hat]
        have ih := traceLoop_counts baseId scripts attachOk rest (offset + 1)
          { out with
            handlers := jsMapSet (baseId + offset) (scripts.getD offset "") out.handlers
            attached := out.attached ++ [baseId + offset] }
          (by
            intro k hk
            rw [hset] at hk
            simp only [List.map_append, List.mem_append] at hk
            rcases hk with hk | hk
            · have := hb k hk
              omega
            · simp at hk
              omega)
        refine ⟨?_, ?_⟩
        · rw [ih.1, hset]
          simp
          omega
        · rw [ih.2]
          simp
          omega
      · rw [if_neg hat]
        have ih := traceLoop_counts baseId scripts attachOk rest (offset + 1)
          { out with
            handlers := jsMapSet (baseId + offset) (scripts.getD offset "") out.handlers
            warnings := out.warnings ++ [memberDisplayName item.1] }
          (by
            intro k hk
            rw [hset] at hk
            simp only [List.map_append, List.mem_append] at hk
            rcases hk with hk | hk
            · have := hb k hk
              omega
            · simp at hk
              omega)
        refine ⟨?_, ?_⟩
        · rw [ih.1, hset]
          simp
          omega
        · rw [ih.2]
          simp
          omega

/-- Claim C9 (counterexample): a single target whose `Interceptor.attach`
throws is still registered in the handler map (the registration happens
before the attach attempt), so the `agent:started` count — the handler-map
size — is 1 while the number of attached targets is 0. -/
theorem traceNativeEntries_failed_attach_ce :
    (traceNativeEntries 1 [(jstr "m", [(MemberName.bare (jstr "f"), jstr "0x1")])]
        ["{}"] (fun _ => false)).handlers.length = 1
    ∧ (traceNativeEntries 1 [(jstr "m", [(MemberName.bare (jstr "f"), jstr "0x1")])]
        ["{}"] (fun _ => false)).attached.length = 0
    ∧ (traceNativeEntries 1 [(jstr "m", [(MemberName.bare (jstr "f"), jstr "0x1")])]
        ["{}"] (fun _ => false)).warnings = [jstr "f"]
    ∧ (1 : Nat) ≠ 0 := by
  decide

/-- Claim C9 (amended): the count carried by `agent:started` is the size of
the handler registry, which equals the number of provisioned members —
targets whose probe attachment failed with a warning are still counted, and
successful attachments plus warnings always account for every member. -/
theorem traceNativeEntries_count (baseId : Nat)
    (groups : List (JSStr × List (MemberName × JSStr)))
    (scripts : List String) (attachOk : JSStr → Bool) :
    (traceNativeEntries baseId groups scripts attachOk).handlers.length = totalMembers groups
    ∧ (traceNativeEntries baseId groups scripts attachOk).attached.length
        + (traceNativeEntries baseId groups scripts attachOk).warnings.length
        = totalMembers groups := by
  rw [traceNativeEntries]
  by_cases hg : groups.isEmpty
  · have hnil : groups = [] := List.isEmpty_iff.mp hg
    subst hnil
    simp [totalMembers]
  · rw [if_neg hg]
    have h := traceLoop_counts baseId scripts attachOk (flattenScopes groups) 0
      ⟨[], [], []⟩ (by simp)
    rw [totalMembers_eq_length_flatten]
    constructor
    · rw [h.1]
      simp
    · rw [h.2]
      simp

theorem totalMembers_nil {α : Type} : totalMembers ([] : List (JSStr × List α)) = 0 := rfl

theorem totalMembers_cons {α : Type} (g : JSStr × List α) (rest : List (JSStr × List α)) :
    totalMembers (g :: rest) = g.2.length + totalMembers rest := by
  simp [totalMembers]

theorem flattenScopes_nil {α : Type} : flattenScopes ([] : List (JSStr × List α)) = [] := rfl

theorem flattenScopes_cons {α : Type} (g : JSStr × List α) (rest : List (JSStr × List α)) :
    flattenScopes (g :: rest) = g.2 ++ flattenScopes rest := by
  simp [flattenScopes]

theorem consumePass_size {α : Type} : ∀ (budget : Nat) (l : List (JSStr × List α)),
    (consumePass budget l).2.2 = min budget (totalMembers l)
  | budget, [] => by simp [consumePass, totalMembers]
  | budget, (n, ms) :: rest => by
      rw [totalMembers_cons]
      by_cases h : budget ≤ ms.length
      · simp only [consumePass, if_pos h]
        omega
      · have ih := consumePass_size (budget - ms.length) rest
        simp only [consumePass, if_neg h, ih]
        omega

theorem consumePass_flatten_take {α : Type} : ∀ (budget : Nat) (l : List (JSStr × List α)),
    flattenScopes (consumePass budget l).1
      = (flattenScopes l).take ((consumePass budget l).2.2)
  | budget, [] => by simp [consumePass, flattenScopes]
  | budget, (n, ms) :: rest => by
      by_cases h : budget ≤ ms.length
      · simp only [consumePass, if_pos h, flattenScopes_cons, flattenScopes_nil,
          List.append_nil]
        rw [List.take_append_of_le_length h]
      · have ih := consumePass_flatten_take (budget - ms.length) rest
        simp only [consumePass, if_neg h, flattenScopes_cons]
        rw [List.take_append, ih]

theorem consumePass_flatten_drop {α : Type} : ∀ (budget : Nat) (l : List (JSStr × List α)),
    flattenScopes (consumePass budget l).2.1
      = (flattenScopes l).drop ((consumePass budget l).2.2)
  | budget, [] => by simp [consumePass, flattenScopes]
  | budget, (n, ms) :: rest => by
      by_cases h : budget ≤ ms.length
      · simp only [consumePass, if_pos h, flattenScopes_cons]
        rw [List.drop_append_of_le_length h]
      · have ih := consumePass_flatten_drop (budget - ms.length) rest
        simp only [consumePass, if_neg h, flattenScopes_cons, List.nil_append]
        rw [List.drop_append, ih]

theorem flattenScopes_dropEmptyScopes {α : Type} : ∀ l : List (JSStr × List α),
    flattenScopes (dropEmptyScopes l) = flattenScopes l
  | [] => rfl
  | (n, ms) :: rest => by
      by_cases h : ms.isEmpty
      · have hms : ms = [] := List.isEmpty_iff.mp h
        subst hms
        simp [dropEmptyScopes, flattenScopes_cons, flattenScopes_dropEmptyScopes rest]
      · simp [dropEmptyScopes, h]

theorem totalMembers_dropEmptyScopes {α : Type} (l : List (JSStr × List α)) :
    totalMembers (dropEmptyScopes l) = totalMembers l := by
  rw [totalMembers_eq_length_flatten, flattenScopes_dropEmptyScopes,
    ← totalMembers_eq_length_flatten]

theorem dropEmptyScopes_isEmpty {α : Type} : ∀ l : List (JSStr × List α),
    (dropEmptyScopes l).isEmpty = true ↔ totalMembers l = 0
  | [] => by simp [dropEmptyScopes, totalMembers]
  | (n, ms) :: rest => by
      by_cases h : ms.isEmpty
      · have hms : ms = [] := List.isEmpty_iff.mp h
        subst hms
        simp only [dropEmptyScopes, List.isEmpty_cons, h, totalMembers_cons,
          List.length_nil]
        rw [if_true]
        rw [dropEmptyScopes_isEmpty rest]
        omega
      · have hms : ms ≠ [] := fun hh => by simp [hh] at h
        have hpos : 0 < ms.length := List.length_pos.mpr hms
        simp only [dropEmptyScopes, if_neg h, totalMembers_cons]
        simp only [List.isEmpty_cons, Bool.false_eq_true, false_iff]
        omega

theorem getHandlersLoop_spec {α : Type} : ∀ (fuel id : Nat) (pending : List (JSStr × List α)),
    totalMembers pending < fuel →
    ((getHandlersLoop fuel id pending).length
        = (if totalMembers pending = 0 then 1 else (totalMembers pending + 999) / 1000))
    ∧ (∀ r ∈ getHandlersLoop fuel id pending, totalMembers r.2 ≤ 1000)
    ∧ idsChained id (getHandlersLoop fuel id pending) = true
    ∧ ((getHandlersLoop fuel id pending).map (fun r => flattenScopes r.2)).flatten
        = flattenScopes pending
  | 0, id, pending, hfuel => absurd hfuel (Nat.not_lt_zero _)
  | Nat.succ fuel, id, pending, hfuel => by
      have hsz := consumePass_size (α := α) 1000 pending
      have hcur : totalMembers (consumePass 1000 pending).1
          = (consumePass 1000 pending).2.2 := by
        rw [totalMembers_eq_length_flatten, consumePass_flatten_take, List.length_take,
          ← totalMembers_eq_length_flatten]
        omega
      have hpend : totalMembers (consumePass 1000 pending).2.1
          = totalMembers pending - (consumePass 1000 pending).2.2 := by
        rw [totalMembers_eq_length_flatten, consumePass_flatten_drop, List.length_drop,
          ← totalMembers_eq_length_flatten]
      simp only [getHandlersLoop]
      by_cases hnp : (dropEmptyScopes (consumePass 1000 pending).2.1).isEmpty
      · rw [if_pos hnp]
        have h0 : totalMembers (consumePass 1000 pending).2.1 = 0 :=
          (dropEmptyScopes_isEmpty _).mp hnp
        refine ⟨?_, ?_, ?_, ?_⟩
        · by_cases ht : totalMembers pending = 0
          · rw [if_pos ht]
            rfl
          · rw [if_neg ht]
            have hone : (totalMembers pending + 999) / 1000 = 1 := by omega
            rw [hone]
            rfl
        · intro r hr
          rw [List.mem_singleton] at hr
          subst hr
          simp only [hcur]
          omega
        · simp [idsChained]
        · simp only [List.map_cons, List.map_nil, List.flatten_cons, List.flatten_nil,
            List.append_nil]
          rw [consumePass_flatten_take]
          rw [List.take_of_length_le (by rw [← totalMembers_eq_length_flatten]; omega)]
      · rw [if_neg hnp]
        have h0 : totalMembers (consumePass 1000 pending).2.1 ≠ 0 := by
          intro hh
          exact hnp ((dropEmptyScopes_isEmpty _).mpr hh)
        have hsz1000 : (consumePass 1000 pending).2.2 = 1000 := by omega
        have htot : 1000 < totalMembers pending := by omega
        have hnpt : totalMembers (dropEmptyScopes (consumePass 1000 pending).2.1)
            = totalMembers pending - 1000 := by
          rw [totalMembers_dropEmptyScopes]
          omega
        have ih := getHandlersLoop_spec fuel (id + (consumePass 1000 pending).2.2)
          (dropEmptyScopes (consumePass 1000 pending).2.1) (by omega)
        refine ⟨?_, ?_, ?_, ?_⟩
        · have hl := ih.1
          rw [hnpt, if_neg (by omega)] at hl
          simp only [List.length_cons, hl]
          rw [if_neg (by omega)]
          omega
        · intro r hr
          rcases List.mem_cons.mp hr with hr | hr
          · subst hr
            simp only [hcur]
            omega
          · exact ih.2.1 r hr
        · simp only [idsChained, beq_self_eq_true, Bool.true_and, hcur]
          exact ih.2.2.1
        · simp only [List.map_cons, List.flatten_cons]
          rw [ih.2.2.2, flattenScopes_dropEmptyScopes, consumePass_flatten_take,
            consumePass_flatten_drop, List.take_append_drop]

/-- Claim C1: for any group list with at least one member in total,
`getHandlers` sends exactly `ceil(N / 1000)` requests, each carrying at most
1000 members taken across groups in group order; each request's id equals
the previous request's id plus the number of members the previous request
consumed, starting at the base id; and when the host answers every request
with one script per requested member in request order (`h` giving the
per-member script), the concatenated scripts are exactly the flattened
input member list mapped through `h` — positional alignment holds. -/
theorem getHandlers_pagination {α β : Type} (h : α → β) (baseId : Nat)
    (scopes : List (JSStr × List α)) (hN : 1 ≤ totalMembers scopes) :
    (getHandlersRequests baseId scopes).length = (totalMembers scopes + 999) / 1000
    ∧ ((getHandlersRequests baseId scopes).all
        (fun r => decide (totalMembers r.2 ≤ 1000)) = true)
    ∧ idsChained baseId (getHandlersRequests baseId scopes) = true
    ∧ runGetHandlers h baseId scopes = (flattenScopes scopes).map h := by
  have hs := getHandlersLoop_spec (totalMembers scopes + 1) baseId scopes (by omega)
  refine ⟨?_, ?_, hs.2.2.1, ?_⟩
  · rw [getHandlersRequests, hs.1, if_neg (by omega)]
  · rw [getHandlersRequests]
    rw [List.all_eq_true]
    intro r hr
    exact decide_eq_true (hs.2.1 r hr)
  · rw [runGetHandlers, getHandlersRequests]
    have hmm : (getHandlersLoop (totalMembers scopes + 1) baseId scopes).map
        (fun r => (flattenScopes r.2).map h)
        = ((getHandlersLoop (totalMembers scopes + 1) baseId scopes).map
            (fun r => flattenScopes r.2)).map (List.map h) := by
      rw [List.map_map]
      rfl
    rw [hmm, ← List.map_flatten, hs.2.2.2]

/-- Claim C1 (witness). -/
theorem getHandlers_pagination_witness :
    (1 ≤ totalMembers [(jstr "g", [10, 20]), (jstr "h", [30])])
    ∧ ((getHandlersRequests 5 [(jstr "g", [10, 20]), (jstr "h", [30])]).length
        = (totalMembers [(jstr "g", [10, 20]), (jstr "h", [30])] + 999) / 1000
      ∧ ((getHandlersRequests 5 [(jstr "g", [10, 20]), (jstr "h", [30])]).all
          (fun r => decide (totalMembers r.2 ≤ 1000)) = true)
      ∧ idsChained 5 (getHandlersRequests 5 [(jstr "g", [10, 20]), (jstr "h", [30])]) = true
      ∧ runGetHandlers (fun n : Nat => n + 1) 5 [(jstr "g", [10, 20]), (jstr "h", [30])]
          = (flattenScopes [(jstr "g", [10, 20]), (jstr "h", [30])]).map (fun n => n + 1)) :=
  ⟨by decide, getHandlers_pagination (fun n : Nat => n + 1) 5
    [(jstr "g", [10, 20]), (jstr "h", [30])] (by decide)⟩

theorem consumePass_of_empty {α : Type} (budget : Nat) (hb : 0 < budget) :
    ∀ l : List (JSStr × List α), totalMembers l = 0 → consumePass budget l = (l, l, 0)
  | [], _ => by simp [consumePass]
  | (n, ms) :: rest, h => by
      rw [totalMembers_cons] at h
      have h' : ms.length + totalMembers rest = 0 := h
      have hms : ms = [] := List.length_eq_zero.mp (by omega)
      have hrest : totalMembers rest = 0 := by omega
      subst hms
      have ih := consumePass_of_empty budget hb rest hrest
      rw [consumePass, if_neg (by simp only [List.length_nil]; omega)]
      simp only [List.length_nil, Nat.sub_zero, ih]

theorem members_empty_of_totalMembers_eq_zero {α : Type} :
    ∀ scopes : List (JSStr × List α), totalMembers scopes = 0 →
      scopes.all (fun sc => sc.2.isEmpty) = true
  | [], _ => rfl
  | (n, ms) :: rest, h => by
      rw [totalMembers_cons] at h
      have h' : ms.length + totalMembers rest = 0 := h
      have hms : ms = [] := List.length_eq_zero.mp (by omega)
      subst hms
      simp only [List.all_cons, List.isEmpty_nil, Bool.true_and]
      exact members_empty_of_totalMembers_eq_zero rest (by omega)

/-- Claim C10: with zero members in total across the scopes, `getHandlers`
still performs exactly one round trip: the single outbound request carries
the base id and the scope list itself (every member list in it empty), and
one correlated reply is awaited before the call returns. -/
theorem getHandlers_empty_roundtrip {α : Type} (baseId : Nat)
    (scopes : List (JSStr × List α)) (h0 : totalMembers scopes = 0) :
    getHandlersRequests baseId scopes = [(baseId, scopes)]
    ∧ (getHandlersRequests baseId scopes).length = 1
    ∧ scopes.all (fun sc => sc.2.isEmpty) = true := by
  have hc : consumePass 1000 scopes = (scopes, scopes, 0) :=
    consumePass_of_empty 1000 (by omega) scopes h0
  have hreq : getHandlersRequests baseId scopes = [(baseId, scopes)] := by
    rw [getHandlersRequests, h0]
    simp only [getHandlersLoop, hc]
    rw [if_pos ((dropEmptyScopes_isEmpty scopes).mpr h0)]
  refine ⟨hreq, ?_, members_empty_of_totalMembers_eq_zero scopes h0⟩
  rw [hreq]
  rfl

/-- Claim C10 (witness). -/
theorem getHandlers_empty_roundtrip_witness :
    (totalMembers [(jstr "g", ([] : List Nat)), (jstr "h", [])] = 0)
    ∧ (getHandlersRequests 3 [(jstr "g", ([] : List Nat)), (jstr "h", [])]
        = [(3, [(jstr "g", []), (jstr "h", [])])]
      ∧ (getHandlersRequests 3 [(jstr "g", ([] : List Nat)), (jstr "h", [])]).length = 1
      ∧ ([(jstr "g", ([] : List Nat)), (jstr "h", [])]).all (fun sc => sc.2.isEmpty) = true) :=
  ⟨by decide, getHandlers_empty_roundtrip 3 [(jstr "g", []), (jstr "h", [])] (by decide)⟩
